import Mathlib

/-
  Verification development for the Online-Retail batch ingestion pipeline.

  The embedding models the loader script (processBatch / populateDatabase)
  together with the relational schema it writes to: four tables with
  primary keys, conflict-do-nothing inserts for the dimension tables and
  an unconditional insert for invoice line items, foreign keys enforced
  by the store at insert time, and group-level all-or-nothing transactions.
-/

namespace OnlineRetail

/-- A raw CSV record as handed to the loader by the csv parser.
Every field is optional: `none` models a column that is absent from the
file (so the driver sends SQL NULL), while `some ""` models a present but
blank cell (the csv parser yields the empty string, which the driver
sends as an empty text value, not NULL). -/
structure Record where
  InvoiceNo : Option String
  StockCode : Option String
  Description : Option String
  Quantity : Option String
  InvoiceDate : Option String
  UnitPrice : Option String
  CustomerID : Option String
  Country : Option String
deriving DecidableEq

/-- A row of the invoices table. -/
structure InvoiceRow where
  invoice_id : String
  customer_id : Option String
  invoice_date : Option String
  country : Option String
  is_cancelled : Bool
deriving DecidableEq

/-- A row of the invoice_items table (the synthetic serial id is the
position in the list). Values for quantity and unit price pass through
as the raw field values. -/
structure ItemRow where
  invoice_id : String
  stock_code : String
  quantity : Option String
  unit_price : Option String
deriving DecidableEq

/-- The relational store: customers and products are keyed association
lists (key, payload); invoices and invoice_items are row lists in
insertion order. -/
structure Store where
  customers : List (String × Option String)
  products : List (String × Option String)
  invoices : List InvoiceRow
  invoice_items : List ItemRow
deriving DecidableEq

def emptyStore : Store := ⟨[], [], [], []⟩

/-- JS truthiness of a field value, as used by the guards in the loader:
a field is truthy iff it is present and a non-empty string. -/
def truthy (v : Option String) : Bool := v.getD "" != ""

def customerKeys (s : Store) : List String := s.customers.map Prod.fst

def productKeys (s : Store) : List String := s.products.map Prod.fst

def invoiceKeys (s : Store) : List String := s.invoices.map InvoiceRow.invoice_id

/-- JS String.prototype.startsWith, modelled on the character sequences
of the two strings. -/
def jsStartsWith (s pre : String) : Bool := pre.data.isPrefixOf s.data

/-- Foreign-key admissibility of a parameter value against the key column
of the referenced table: SQL NULL always passes, a string value has to
exist among the keys. -/
def fkOk (v : Option String) (ks : List String) : Prop :=
  match v with
  | none => True
  | some str => str ∈ ks

instance (v : Option String) (ks : List String) : Decidable (fkOk v ks) := by
  unfold fkOk
  cases v <;> infer_instance

/-- INSERT INTO customers ... ON CONFLICT (customer_id) DO NOTHING,
guarded by `if (row.CustomerID)`. Cannot fail: the conflict clause
absorbs the only constraint on the table. -/
def insCustomer (s : Store) (r : Record) : Store :=
  if truthy r.CustomerID then
    if r.CustomerID.getD "" ∈ customerKeys s then s
    else { s with customers := s.customers ++ [(r.CustomerID.getD "", r.Country)] }
  else s

/-- INSERT INTO products ... ON CONFLICT (stock_code) DO NOTHING,
guarded by `if (row.StockCode && row.Description)`. -/
def insProduct (s : Store) (r : Record) : Store :=
  if truthy r.StockCode && truthy r.Description then
    if r.StockCode.getD "" ∈ productKeys s then s
    else { s with products := s.products ++ [(r.StockCode.getD "", r.Description)] }
  else s

/-- The invoice row built from a record: is_cancelled is derived from the
startsWith check against the marker C on the invoice number, and the
customer_id parameter is the raw CustomerID field value. -/
def mkInvoiceRow (r : Record) : InvoiceRow :=
  { invoice_id := r.InvoiceNo.getD ""
    customer_id := r.CustomerID
    invoice_date := r.InvoiceDate
    country := r.Country
    is_cancelled := jsStartsWith (r.InvoiceNo.getD "") "C" }

/-- INSERT INTO invoices ... ON CONFLICT (invoice_id) DO NOTHING, guarded
by `if (row.InvoiceNo)`. A conflicting row is skipped before any
constraint is checked; a newly inserted row must satisfy the foreign key
on customer_id, otherwise the statement raises and the transaction is
doomed (`none`). -/
def insInvoice (s : Store) (r : Record) : Option Store :=
  if truthy r.InvoiceNo then
    if r.InvoiceNo.getD "" ∈ invoiceKeys s then some s
    else if fkOk r.CustomerID (customerKeys s) then
      some { s with invoices := s.invoices ++ [mkInvoiceRow r] }
    else none
  else some s

/-- The invoice_items row built from a record. -/
def mkItemRow (r : Record) : ItemRow :=
  { invoice_id := r.InvoiceNo.getD ""
    stock_code := r.StockCode.getD ""
    quantity := r.Quantity
    unit_price := r.UnitPrice }

/-- Plain INSERT INTO invoice_items (no conflict clause), guarded by
`if (row.InvoiceNo && row.StockCode)`. Both foreign keys must resolve,
otherwise the statement raises (`none`). -/
def insItem (s : Store) (r : Record) : Option Store :=
  if truthy r.InvoiceNo && truthy r.StockCode then
    if r.InvoiceNo.getD "" ∈ invoiceKeys s ∧ r.StockCode.getD "" ∈ productKeys s then
      some { s with invoice_items := s.invoice_items ++ [mkItemRow r] }
    else none
  else some s

/-- One loop iteration of processBatch: the four inserts for one record,
in source order (customer, product, invoice, invoice item). -/
def processRecord (s : Store) (r : Record) : Option Store :=
  (insInvoice (insProduct (insCustomer s r) r) r).bind fun s3 => insItem s3 r

/-- The body of the processBatch transaction: the records of the group in
order, stopping at the first failing statement. -/
def processBatchAux : List Record → Store → Option Store
  | [], s => some s
  | r :: rs, s =>
    match processRecord s r with
    | some s2 => processBatchAux rs s2
    | none => none

/-- processBatch: BEGIN, the per-record inserts, then COMMIT on success
(second component `true`) or ROLLBACK on any failure (the store is left
exactly as before the group, second component `false`). -/
def processBatch (b : List Record) (s : Store) : Store × Bool :=
  match processBatchAux b s with
  | some s2 => (s2, true)
  | none => (s, false)

/-- The configured batch capacity of the accumulator. -/
def batchSize : Nat := 1000

/-- The streaming accumulator of populateDatabase: push each record onto
the current buffer; as soon as the buffer holds batchSize records, flush
it as one group and continue with an empty buffer; at end of source,
flush a final non-empty leftover buffer. -/
def toGroupsAux (cap : Nat) : List Record → List Record → List (List Record)
  | [], acc => if acc = [] then [] else [acc]
  | r :: rest, acc =>
    if cap ≤ (acc ++ [r]).length then (acc ++ [r]) :: toGroupsAux cap rest []
    else toGroupsAux cap rest (acc ++ [r])

/-- The sequence of groups the accumulator hands to the loader for a
given input sequence. -/
def toGroups (cap : Nat) (l : List Record) : List (List Record) :=
  toGroupsAux cap l []

/-- The sequential driver loop: each group goes through processBatch in
order; the running processedRows counter grows by the size of a group
exactly when that group committed. -/
def runBatches : List (List Record) → Store → Store × Nat
  | [], s => (s, 0)
  | b :: bs, s =>
    let res := processBatch b s
    let rest := runBatches bs res.1
    (rest.1, (if res.2 then b.length else 0) + rest.2)

/-- populateDatabase: group the input rows with the streaming accumulator
and feed the groups to the loader one at a time, returning the final
store and the final processedRows count. -/
def populateDatabase (input : List Record) (s : Store) : Store × Nat :=
  runBatches (toGroups batchSize input) s

/-- Spec-side description of the progress report: the sizes of exactly
those groups whose transaction committed, in order. -/
def committedSizes : List (List Record) → Store → List Nat
  | [], _ => []
  | b :: bs, s =>
    let res := processBatch b s
    if res.2 then b.length :: committedSizes bs res.1
    else committedSizes bs res.1

/-- Whether every group of the list commits when run in sequence from the
given store. -/
def allOk : List (List Record) → Store → Bool
  | [], _ => true
  | b :: bs, s =>
    match processBatchAux b s with
    | some s2 => allOk bs s2
    | none => false

/-- The line items a single record contributes to a committed group. -/
def itemsOf (r : Record) : List ItemRow :=
  if truthy r.InvoiceNo && truthy r.StockCode then [mkItemRow r] else []

/-- The line items a whole group contributes when it commits. -/
def groupItems (b : List Record) : List ItemRow :=
  (b.map itemsOf).flatten

/-- The line items a whole run contributes when every group commits. -/
def runItems (bs : List (List Record)) : List ItemRow :=
  (bs.map groupItems).flatten

/-- Referential integrity of a store: every line item references an
invoice row and a product row that exist. -/
abbrev storeOk (s : Store) : Prop :=
  ∀ it ∈ s.invoice_items,
    it.invoice_id ∈ invoiceKeys s ∧ it.stock_code ∈ productKeys s

/-- Per-record effect of one loop iteration on each of the four tables:
a Customer row goes in exactly when the customer id field is truthy and
the key is new (a conflicting key leaves the table, existing country
included, untouched); a Product row exactly when stock code and
description are both truthy and the key is new; an Invoice row exactly
when the invoice id is truthy and the key is new; and the line item is
appended, with no dedup lookup, exactly when invoice id and stock code
are both truthy. -/
abbrev recordEffect (s : Store) (r : Record) (t : Store) : Prop :=
  (t.customers = if truthy r.CustomerID then
      (if r.CustomerID.getD "" ∈ customerKeys s then s.customers
       else s.customers ++ [(r.CustomerID.getD "", r.Country)])
    else s.customers)
  ∧ (t.products = if truthy r.StockCode && truthy r.Description then
      (if r.StockCode.getD "" ∈ productKeys s then s.products
       else s.products ++ [(r.StockCode.getD "", r.Description)])
    else s.products)
  ∧ (t.invoices = if truthy r.InvoiceNo then
      (if r.InvoiceNo.getD "" ∈ invoiceKeys s then s.invoices
       else s.invoices ++ [mkInvoiceRow r])
    else s.invoices)
  ∧ (t.invoice_items = s.invoice_items ++ itemsOf r)

/-- State of the batch accumulator inside the streaming read loop:
the current buffer, and the group currently handed to the loader, if
any. `inflight` being an `Option` renders the single-outstanding-group
discipline: the stream is paused (no arrivals) exactly while it is
`some`. -/
structure AccState where
  buffer : List Record
  inflight : Option (List Record)
deriving DecidableEq

/-- Accumulator state before any record has been read. -/
def accInit : AccState := ⟨[], none⟩

/-- Events of the streaming loop. `arrive`: a data event pushes a record
onto the buffer while the stream is not paused and the buffer stays
under capacity. `fill`: a data event brings the buffer up to capacity,
so the stream is paused and the full buffer handed to the loader.
`complete`: the pending group finishes (commit or rollback), the buffer
is cleared and the stream resumed. -/
inductive AccStep : AccState → AccState → Prop
  | arrive (s : AccState) (r : Record) (hp : s.inflight = none)
      (hlen : s.buffer.length + 1 < batchSize) :
      AccStep s ⟨s.buffer ++ [r], none⟩
  | fill (s : AccState) (r : Record) (hp : s.inflight = none)
      (hlen : batchSize ≤ s.buffer.length + 1) :
      AccStep s ⟨s.buffer ++ [r], some (s.buffer ++ [r])⟩
  | complete (s : AccState) (g : List Record) (hp : s.inflight = some g) :
      AccStep s ⟨[], none⟩

/-- Accumulator states reachable during a run. -/
inductive AccReachable : AccState → Prop
  | init : AccReachable accInit
  | step (s t : AccState) (hs : AccReachable s) (ht : AccStep s t) :
      AccReachable t

/-- A record with no usable field: every insert is skipped. -/
def blank : Record :=
  { InvoiceNo := none, StockCode := none, Description := none,
    Quantity := none, InvoiceDate := none, UnitPrice := none,
    CustomerID := none, Country := none }

/-- A record whose product row is never written (description missing)
although a line item for its stock code is attempted: in a store without
that product, the line item insert violates the foreign key and dooms
its group. -/
def rA : Record :=
  { InvoiceNo := some "536401", StockCode := some "21730",
    Description := none,
    Quantity := some "6", InvoiceDate := some "2010-12-01 09:00:00",
    UnitPrice := some "4.25", CustomerID := some "17850",
    Country := some "United Kingdom" }

/-- A fully valid record for the same stock code as `rA`. -/
def rB : Record :=
  { InvoiceNo := some "536402", StockCode := some "21730",
    Description := some "GLASS STAR FROSTED T-LIGHT HOLDER",
    Quantity := some "6", InvoiceDate := some "2010-12-01 09:30:00",
    UnitPrice := some "4.25", CustomerID := some "17850",
    Country := some "United Kingdom" }

/-- An input long enough for two groups: `rA` opens a full first group
padded with blank records, `rB` forms the second group. -/
def cinput : List Record := rA :: (List.replicate 999 blank ++ [rB])

/-- The store after loading just `rB` into an empty store. -/
def sB : Store :=
  ⟨[("17850", some "United Kingdom")],
   [("21730", some "GLASS STAR FROSTED T-LIGHT HOLDER")],
   [⟨"536402", some "17850", some "2010-12-01 09:30:00",
     some "United Kingdom", false⟩],
   [⟨"536402", "21730", some "6", some "4.25"⟩]⟩

/-- The store after a rerun reprocesses `rA` against `sB`: the formerly
doomed group now commits, adding the invoice 536401 and its line item. -/
def sBA : Store :=
  ⟨[("17850", some "United Kingdom")],
   [("21730", some "GLASS STAR FROSTED T-LIGHT HOLDER")],
   [⟨"536402", some "17850", some "2010-12-01 09:30:00",
     some "United Kingdom", false⟩,
    ⟨"536401", some "17850", some "2010-12-01 09:00:00",
     some "United Kingdom", false⟩],
   [⟨"536402", "21730", some "6", some "4.25"⟩,
    ⟨"536401", "21730", some "6", some "4.25"⟩]⟩

/-- The store after the rerun also reprocesses the `rB` group against
`sBA`: all dimension inserts conflict away, one duplicate line item. -/
def sBA2 : Store :=
  ⟨[("17850", some "United Kingdom")],
   [("21730", some "GLASS STAR FROSTED T-LIGHT HOLDER")],
   [⟨"536402", some "17850", some "2010-12-01 09:30:00",
     some "United Kingdom", false⟩,
    ⟨"536401", some "17850", some "2010-12-01 09:00:00",
     some "United Kingdom", false⟩],
   [⟨"536402", "21730", some "6", some "4.25"⟩,
    ⟨"536401", "21730", some "6", some "4.25"⟩,
    ⟨"536402", "21730", some "6", some "4.25"⟩]⟩

/-- First example row of the end-to-end example in the spec. -/
def ex1 : Record :=
  { InvoiceNo := some "536365", StockCode := some "85123A",
    Description := some "WHITE HANGING HEART T-LIGHT HOLDER",
    Quantity := some "6", InvoiceDate := some "2010-12-01 08:26:00",
    UnitPrice := some "2.55", CustomerID := some "17850",
    Country := some "United Kingdom" }

/-- Second example row: a cancellation, description cell blank. -/
def ex2 : Record :=
  { InvoiceNo := some "C536366", StockCode := some "85123A",
    Description := some "",
    Quantity := some "-1", InvoiceDate := some "2010-12-01 08:28:00",
    UnitPrice := some "2.55", CustomerID := some "17850",
    Country := some "United Kingdom" }

/-- Third example row: stock code cell blank; the elided fields are
taken as the same customer and country as the other rows. -/
def ex3 : Record :=
  { InvoiceNo := some "536367", StockCode := some "",
    Description := some "",
    Quantity := some "3", InvoiceDate := some "2010-12-01 08:34:00",
    UnitPrice := some "1.25", CustomerID := some "17850",
    Country := some "United Kingdom" }

/-- An anonymous transaction as it comes out of the csv parser: the
customer cell is blank, so the field holds the empty string. -/
def rAnon : Record :=
  { InvoiceNo := some "536414", StockCode := some "22456",
    Description := some "NATURAL SLATE CHALKBOARD LARGE",
    Quantity := some "10", InvoiceDate := some "2010-12-01 11:45:00",
    UnitPrice := some "1.65", CustomerID := some "",
    Country := some "United Kingdom" }

/-- The same transaction if the customer column were absent altogether,
so the driver would send SQL NULL. -/
def rAnonN : Record := { rAnon with CustomerID := none }

/-- A cancellation record: like `rB` but with the invoice number carrying
the cancellation marker. -/
def rC : Record := { rB with InvoiceNo := some "C536403" }

/-- The store after loading just `rC` into an empty store. -/
def sC : Store :=
  ⟨[("17850", some "United Kingdom")],
   [("21730", some "GLASS STAR FROSTED T-LIGHT HOLDER")],
   [⟨"C536403", some "17850", some "2010-12-01 09:30:00",
     some "United Kingdom", true⟩],
   [⟨"C536403", "21730", some "6", some "4.25"⟩]⟩

theorem insCustomer_spec (s : Store) (r : Record) :
    (insCustomer s r).customers = (if truthy r.CustomerID then
      (if r.CustomerID.getD "" ∈ customerKeys s then s.customers
       else s.customers ++ [(r.CustomerID.getD "", r.Country)])
      else s.customers)
    ∧ (insCustomer s r).products = s.products
    ∧ (insCustomer s r).invoices = s.invoices
    ∧ (insCustomer s r).invoice_items = s.invoice_items := by
  unfold insCustomer
  by_cases h1 : truthy r.CustomerID
  · by_cases h2 : r.CustomerID.getD "" ∈ customerKeys s <;> simp [h1, h2]
  · simp [h1]

theorem insProduct_spec (s : Store) (r : Record) :
    (insProduct s r).products = (if truthy r.StockCode && truthy r.Description then
      (if r.StockCode.getD "" ∈ productKeys s then s.products
       else s.products ++ [(r.StockCode.getD "", r.Description)])
      else s.products)
    ∧ (insProduct s r).customers = s.customers
    ∧ (insProduct s r).invoices = s.invoices
    ∧ (insProduct s r).invoice_items = s.invoice_items := by
  unfold insProduct
  by_cases h1 : truthy r.StockCode && truthy r.Description
  · by_cases h2 : r.StockCode.getD "" ∈ productKeys s <;> simp [h1, h2]
  · simp [h1]

theorem insInvoice_spec (s : Store) (r : Record) (t : Store)
    (h : insInvoice s r = some t) :
    t.invoices = (if truthy r.InvoiceNo then
      (if r.InvoiceNo.getD "" ∈ invoiceKeys s then s.invoices
       else s.invoices ++ [mkInvoiceRow r])
      else s.invoices)
    ∧ t.customers = s.customers
    ∧ t.products = s.products
    ∧ t.invoice_items = s.invoice_items := by
  unfold insInvoice at h
  by_cases h1 : truthy r.InvoiceNo
  · by_cases h2 : r.InvoiceNo.getD "" ∈ invoiceKeys s
    · simp [h1, h2] at h ⊢
      subst h
      simp
    · by_cases h3 : fkOk r.CustomerID (customerKeys s)
      · simp [h1, h2, h3] at h ⊢
        subst h
        simp
      · simp [h1, h2, h3] at h
  · simp [h1] at h ⊢
    subst h
    simp

theorem insItem_spec (s : Store) (r : Record) (t : Store)
    (h : insItem s r = some t) :
    t.invoice_items = s.invoice_items ++ itemsOf r
    ∧ t.customers = s.customers
    ∧ t.products = s.products
    ∧ t.invoices = s.invoices := by
  unfold insItem at h
  by_cases h1 : truthy r.InvoiceNo && truthy r.StockCode
  · by_cases h2 : r.InvoiceNo.getD "" ∈ invoiceKeys s ∧ r.StockCode.getD "" ∈ productKeys s
    · simp [h1, h2] at h
      subst h
      simp [itemsOf, h1]
    · simp [h1, h2] at h
  · simp [h1] at h
    subst h
    simp [itemsOf, h1]

theorem insItem_fk (s : Store) (r : Record) (t : Store)
    (h : insItem s r = some t)
    (hg : (truthy r.InvoiceNo && truthy r.StockCode) = true) :
    r.InvoiceNo.getD "" ∈ invoiceKeys s ∧ r.StockCode.getD "" ∈ productKeys s := by
  unfold insItem at h
  rw [if_pos hg] at h
  by_cases h2 : r.InvoiceNo.getD "" ∈ invoiceKeys s ∧ r.StockCode.getD "" ∈ productKeys s
  · exact h2
  · simp [h2] at h

theorem processRecord_effect (s : Store) (r : Record) (t : Store)
    (h : processRecord s r = some t) : recordEffect s r t := by
  unfold processRecord at h
  rcases Option.bind_eq_some.mp h with ⟨s3, h3, h4⟩
  obtain ⟨hc1, hc2, hc3, hc4⟩ := insCustomer_spec s r
  obtain ⟨hp1, hp2, hp3, hp4⟩ := insProduct_spec (insCustomer s r) r
  obtain ⟨hi1, hi2, hi3, hi4⟩ := insInvoice_spec (insProduct (insCustomer s r) r) r s3 h3
  obtain ⟨ht1, ht2, ht3, ht4⟩ := insItem_spec s3 r t h4
  refine ⟨?_, ?_, ?_, ?_⟩
  · rw [ht2, hi2, hp2, hc1]
  · rw [ht3, hi3, hp1]
    have : productKeys (insCustomer s r) = productKeys s := by
      unfold productKeys
      rw [hc2]
    rw [this, hc2]
  · rw [ht4, hi1]
    have : invoiceKeys (insProduct (insCustomer s r) r) = invoiceKeys s := by
      unfold invoiceKeys
      rw [hp3, hc3]
    rw [this, hp3, hc3]
  · rw [ht1, hi4, hp4, hc4]

theorem recordEffect_keys (s : Store) (r : Record) (t : Store)
    (he : recordEffect s r t) :
    customerKeys s ⊆ customerKeys t
    ∧ productKeys s ⊆ productKeys t
    ∧ invoiceKeys s ⊆ invoiceKeys t := by
  obtain ⟨h1, h2, h3, _⟩ := he
  refine ⟨?_, ?_, ?_⟩
  · unfold customerKeys
    rw [h1]
    split
    · split
      · exact List.Subset.refl _
      · simp
    · exact List.Subset.refl _
  · unfold productKeys
    rw [h2]
    split
    · split
      · exact List.Subset.refl _
      · simp
    · exact List.Subset.refl _
  · unfold invoiceKeys
    rw [h3]
    split
    · split
      · exact List.Subset.refl _
      · simp
    · exact List.Subset.refl _

theorem recordEffect_customer_mem (s : Store) (r : Record) (t : Store)
    (he : recordEffect s r t) (hg : truthy r.CustomerID = true) :
    r.CustomerID.getD "" ∈ customerKeys t := by
  obtain ⟨h1, _, _, _⟩ := he
  unfold customerKeys
  rw [h1, if_pos hg]
  by_cases h2 : r.CustomerID.getD "" ∈ customerKeys s
  · rw [if_pos h2]
    exact h2
  · rw [if_neg h2]
    simp

theorem recordEffect_product_mem (s : Store) (r : Record) (t : Store)
    (he : recordEffect s r t)
    (hg : (truthy r.StockCode && truthy r.Description) = true) :
    r.StockCode.getD "" ∈ productKeys t := by
  obtain ⟨_, h2, _, _⟩ := he
  unfold productKeys
  rw [h2, if_pos hg]
  by_cases h3 : r.StockCode.getD "" ∈ productKeys s
  · rw [if_pos h3]
    exact h3
  · rw [if_neg h3]
    simp

theorem recordEffect_invoice_mem (s : Store) (r : Record) (t : Store)
    (he : recordEffect s r t) (hg : truthy r.InvoiceNo = true) :
    r.InvoiceNo.getD "" ∈ invoiceKeys t := by
  obtain ⟨_, _, h3, _⟩ := he
  unfold invoiceKeys
  rw [h3, if_pos hg]
  by_cases h4 : r.InvoiceNo.getD "" ∈ invoiceKeys s
  · rw [if_pos h4]
    exact h4
  · rw [if_neg h4]
    simp [mkInvoiceRow]

theorem processRecord_fk (s : Store) (r : Record) (t : Store)
    (h : processRecord s r = some t)
    (hg : (truthy r.InvoiceNo && truthy r.StockCode) = true) :
    r.InvoiceNo.getD "" ∈ invoiceKeys t ∧ r.StockCode.getD "" ∈ productKeys t := by
  unfold processRecord at h
  rcases Option.bind_eq_some.mp h with ⟨s3, h3, h4⟩
  have hmem := insItem_fk s3 r t h4 hg
  obtain ⟨_, _, ht3, ht4⟩ := insItem_spec s3 r t h4
  constructor
  · show r.InvoiceNo.getD "" ∈ invoiceKeys t
    unfold invoiceKeys
    rw [ht4]
    exact hmem.1
  · show r.StockCode.getD "" ∈ productKeys t
    unfold productKeys
    rw [ht3]
    exact hmem.2

theorem insCustomer_noop (u : Store) (r : Record)
    (h : truthy r.CustomerID = true → r.CustomerID.getD "" ∈ customerKeys u) :
    insCustomer u r = u := by
  unfold insCustomer
  by_cases h1 : truthy r.CustomerID
  · rw [if_pos h1, if_pos (h h1)]
  · rw [if_neg h1]

theorem insProduct_noop (u : Store) (r : Record)
    (h : (truthy r.StockCode && truthy r.Description) = true →
      r.StockCode.getD "" ∈ productKeys u) :
    insProduct u r = u := by
  unfold insProduct
  by_cases h1 : truthy r.StockCode && truthy r.Description
  · rw [if_pos h1, if_pos (h h1)]
  · rw [if_neg h1]

theorem insInvoice_noop (u : Store) (r : Record)
    (h : truthy r.InvoiceNo = true → r.InvoiceNo.getD "" ∈ invoiceKeys u) :
    insInvoice u r = some u := by
  unfold insInvoice
  by_cases h1 : truthy r.InvoiceNo
  · rw [if_pos h1, if_pos (h h1)]
  · rw [if_neg h1]

theorem processRecord_rerun (s : Store) (r : Record) (t u : Store)
    (h : processRecord s r = some t)
    (hc : customerKeys t ⊆ customerKeys u)
    (hp : productKeys t ⊆ productKeys u)
    (hi : invoiceKeys t ⊆ invoiceKeys u) :
    processRecord u r =
      some { u with invoice_items := u.invoice_items ++ itemsOf r } := by
  have he := processRecord_effect s r t h
  have hcu : insCustomer u r = u :=
    insCustomer_noop u r fun hg => hc (recordEffect_customer_mem s r t he hg)
  have hpu : insProduct u r = u :=
    insProduct_noop u r fun hg => hp (recordEffect_product_mem s r t he hg)
  have hiu : insInvoice u r = some u :=
    insInvoice_noop u r fun hg => hi (recordEffect_invoice_mem s r t he hg)
  unfold processRecord
  rw [hcu, hpu, hiu, Option.some_bind]
  unfold insItem
  by_cases hg : truthy r.InvoiceNo && truthy r.StockCode
  · have hmem := processRecord_fk s r t h hg
    rw [if_pos hg, if_pos ⟨hi hmem.1, hp hmem.2⟩]
    simp [itemsOf, hg]
  · rw [if_neg hg]
    simp [itemsOf, hg]

theorem customerKeys_set_items (u : Store) (x : List ItemRow) :
    customerKeys { u with invoice_items := x } = customerKeys u := rfl

theorem productKeys_set_items (u : Store) (x : List ItemRow) :
    productKeys { u with invoice_items := x } = productKeys u := rfl

theorem invoiceKeys_set_items (u : Store) (x : List ItemRow) :
    invoiceKeys { u with invoice_items := x } = invoiceKeys u := rfl

theorem processBatchAux_cons_some (r : Record) (rs : List Record)
    (s s2 : Store) (h : processRecord s r = some s2) :
    processBatchAux (r :: rs) s = processBatchAux rs s2 := by
  simp [processBatchAux, h]

theorem processBatchAux_cons_none (r : Record) (rs : List Record)
    (s : Store) (h : processRecord s r = none) :
    processBatchAux (r :: rs) s = none := by
  simp [processBatchAux, h]

theorem processBatchAux_effect (b : List Record) :
    ∀ (s t : Store), processBatchAux b s = some t →
    t.invoice_items = s.invoice_items ++ groupItems b
    ∧ customerKeys s ⊆ customerKeys t
    ∧ productKeys s ⊆ productKeys t
    ∧ invoiceKeys s ⊆ invoiceKeys t := by
  induction b with
  | nil =>
    intro s t h
    simp [processBatchAux] at h
    subst h
    simp [groupItems]
  | cons r rs ih =>
    intro s t h
    simp only [processBatchAux] at h
    cases hr : processRecord s r with
    | none => rw [hr] at h; exact absurd h (by simp)
    | some s2 =>
      rw [hr] at h
      have he := processRecord_effect s r s2 hr
      have hk := recordEffect_keys s r s2 he
      obtain ⟨ih1, ih2, ih3, ih4⟩ := ih s2 t h
      refine ⟨?_, hk.1.trans ih2, hk.2.1.trans ih3, hk.2.2.trans ih4⟩
      rw [ih1, he.2.2.2]
      simp [groupItems]

theorem processBatchAux_rerun (b : List Record) :
    ∀ (s t u : Store), processBatchAux b s = some t →
    customerKeys t ⊆ customerKeys u →
    productKeys t ⊆ productKeys u →
    invoiceKeys t ⊆ invoiceKeys u →
    processBatchAux b u =
      some { u with invoice_items := u.invoice_items ++ groupItems b } := by
  induction b with
  | nil =>
    intro s t u h hc hp hi
    simp [processBatchAux, groupItems]
  | cons r rs ih =>
    intro s t u h hc hp hi
    simp only [processBatchAux] at h
    cases hr : processRecord s r with
    | none => rw [hr] at h; exact absurd h (by simp)
    | some s2 =>
      rw [hr] at h
      obtain ⟨_, hk1, hk2, hk3⟩ := processBatchAux_effect rs s2 t h
      have hstep := processRecord_rerun s r s2 u hr
        (List.Subset.trans hk1 hc) (List.Subset.trans hk2 hp)
        (List.Subset.trans hk3 hi)
      have hrest := ih s2 t ({ u with invoice_items := u.invoice_items ++ itemsOf r })
        h (by rw [customerKeys_set_items]; exact hc)
        (by rw [productKeys_set_items]; exact hp)
        (by rw [invoiceKeys_set_items]; exact hi)
      rw [processBatchAux_cons_some r rs u _ hstep, hrest]
      simp [groupItems, List.append_assoc]

theorem runBatches_keys (bs : List (List Record)) :
    ∀ (s : Store),
    customerKeys s ⊆ customerKeys (runBatches bs s).1
    ∧ productKeys s ⊆ productKeys (runBatches bs s).1
    ∧ invoiceKeys s ⊆ invoiceKeys (runBatches bs s).1 := by
  induction bs with
  | nil =>
    intro s
    simp [runBatches]
  | cons b bs ih =>
    intro s
    simp only [runBatches]
    cases haux : processBatchAux b s with
    | none =>
      simp only [processBatch, haux]
      exact ih s
    | some s2 =>
      simp only [processBatch, haux]
      obtain ⟨_, hk1, hk2, hk3⟩ := processBatchAux_effect b s s2 haux
      obtain ⟨ih1, ih2, ih3⟩ := ih s2
      exact ⟨hk1.trans ih1, hk2.trans ih2, hk3.trans ih3⟩

theorem runBatches_allOk_items (bs : List (List Record)) :
    ∀ (s : Store), allOk bs s = true →
    (runBatches bs s).1.invoice_items = s.invoice_items ++ runItems bs := by
  induction bs with
  | nil =>
    intro s _
    simp [runBatches, runItems]
  | cons b bs ih =>
    intro s h
    simp only [allOk] at h
    cases haux : processBatchAux b s with
    | none => rw [haux] at h; exact absurd h (by simp)
    | some s2 =>
      rw [haux] at h
      simp only [runBatches, processBatch, haux]
      rw [ih s2 h, (processBatchAux_effect b s s2 haux).1]
      simp [runItems, List.append_assoc]

theorem runBatches_rerun (bs : List (List Record)) :
    ∀ (s u : Store), allOk bs s = true →
    customerKeys (runBatches bs s).1 ⊆ customerKeys u →
    productKeys (runBatches bs s).1 ⊆ productKeys u →
    invoiceKeys (runBatches bs s).1 ⊆ invoiceKeys u →
    (runBatches bs u).1 = { u with invoice_items := u.invoice_items ++ runItems bs }
    ∧ allOk bs u = true := by
  induction bs with
  | nil =>
    intro s u _ _ _ _
    simp [runBatches, runItems, allOk]
  | cons b bs ih =>
    intro s u h hc hp hi
    simp only [allOk] at h
    cases haux : processBatchAux b s with
    | none => rw [haux] at h; exact absurd h (by simp)
    | some s2 =>
      rw [haux] at h
      simp only [runBatches, processBatch, haux] at hc hp hi
      obtain ⟨hr1, hr2, hr3⟩ := runBatches_keys bs s2
      have hstep := processBatchAux_rerun b s s2 u haux
        (List.Subset.trans hr1 hc) (List.Subset.trans hr2 hp)
        (List.Subset.trans hr3 hi)
      have hrest := ih s2 ({ u with invoice_items := u.invoice_items ++ groupItems b }) h
        (by rw [customerKeys_set_items]; exact hc)
        (by rw [productKeys_set_items]; exact hp)
        (by rw [invoiceKeys_set_items]; exact hi)
      constructor
      · simp only [runBatches, processBatch, hstep]
        rw [hrest.1]
        simp [runItems, List.append_assoc]
      · simp only [allOk, hstep]
        exact hrest.2

theorem processRecord_storeOk (s : Store) (r : Record) (t : Store)
    (h : processRecord s r = some t) (hs : storeOk s) : storeOk t := by
  have he := processRecord_effect s r t h
  obtain ⟨hk1, hk2, hk3⟩ := recordEffect_keys s r t he
  intro it hit
  rw [he.2.2.2, List.mem_append] at hit
  cases hit with
  | inl hold =>
    obtain ⟨m1, m2⟩ := hs it hold
    exact ⟨hk3 m1, hk2 m2⟩
  | inr hnew =>
    unfold itemsOf at hnew
    by_cases hg : truthy r.InvoiceNo && truthy r.StockCode
    · rw [if_pos hg, List.mem_singleton] at hnew
      subst hnew
      have := processRecord_fk s r t h hg
      exact ⟨this.1, this.2⟩
    · rw [if_neg hg] at hnew
      exact absurd hnew (List.not_mem_nil it)

theorem processBatchAux_storeOk (b : List Record) :
    ∀ (s t : Store), processBatchAux b s = some t → storeOk s → storeOk t := by
  induction b with
  | nil =>
    intro s t h hs
    simp [processBatchAux] at h
    subst h
    exact hs
  | cons r rs ih =>
    intro s t h hs
    simp only [processBatchAux] at h
    cases hr : processRecord s r with
    | none => rw [hr] at h; exact absurd h (by simp)
    | some s2 =>
      rw [hr] at h
      exact ih s2 t h (processRecord_storeOk s r s2 hr hs)

theorem processBatch_storeOk (b : List Record) (s : Store)
    (hs : storeOk s) : storeOk (processBatch b s).1 := by
  unfold processBatch
  cases haux : processBatchAux b s with
  | none => exact hs
  | some s2 => exact processBatchAux_storeOk b s s2 haux hs

theorem toGroupsAux_nil (cap : Nat) (acc : List Record) :
    toGroupsAux cap [] acc = if acc = [] then [] else [acc] := rfl

theorem toGroupsAux_cons (cap : Nat) (r : Record) (rest acc : List Record) :
    toGroupsAux cap (r :: rest) acc =
      if cap ≤ (acc ++ [r]).length then (acc ++ [r]) :: toGroupsAux cap rest []
      else toGroupsAux cap rest (acc ++ [r]) := rfl

theorem toGroupsAux_flatten (cap : Nat) :
    ∀ (l acc : List Record), (toGroupsAux cap l acc).flatten = acc ++ l := by
  intro l
  induction l with
  | nil =>
    intro acc
    unfold toGroupsAux
    by_cases h : acc = [] <;> simp [h]
  | cons r rest ih =>
    intro acc
    unfold toGroupsAux
    by_cases h : cap ≤ (acc ++ [r]).length
    · simp only [if_pos h, List.flatten_cons, ih]
      simp
    · simp only [if_neg h, ih]
      simp

theorem toGroupsAux_bounds (cap : Nat) (hcap : 0 < cap) :
    ∀ (l acc : List Record), acc.length < cap →
    ∀ g ∈ toGroupsAux cap l acc, g ≠ [] ∧ g.length ≤ cap := by
  intro l
  induction l with
  | nil =>
    intro acc hacc g hg
    unfold toGroupsAux at hg
    by_cases h : acc = []
    · rw [if_pos h] at hg
      exact absurd hg (List.not_mem_nil g)
    · rw [if_neg h, List.mem_singleton] at hg
      subst hg
      exact ⟨h, Nat.le_of_lt hacc⟩
  | cons r rest ih =>
    intro acc hacc g hg
    unfold toGroupsAux at hg
    by_cases h : cap ≤ (acc ++ [r]).length
    · rw [if_pos h, List.mem_cons] at hg
      cases hg with
      | inl hg =>
        subst hg
        constructor
        · simp
        · simp only [List.length_append, List.length_singleton]
          omega
      | inr hg =>
        exact ih [] (by simpa using hcap) g hg
    · rw [if_neg h] at hg
      refine ih (acc ++ [r]) ?_ g hg
      simp only [List.length_append, List.length_singleton] at h ⊢
      omega

theorem toGroupsAux_full (cap : Nat) :
    ∀ (l acc : List Record) (pre : List (List Record)) (g : List Record)
      (post : List (List Record)),
    acc.length < cap →
    toGroupsAux cap l acc = pre ++ g :: post → post ≠ [] →
    g.length = cap := by
  intro l
  induction l with
  | nil =>
    intro acc pre g post hacc heq hpost
    unfold toGroupsAux at heq
    by_cases h : acc = []
    · rw [if_pos h] at heq
      exact absurd heq.symm (by simp)
    · rw [if_neg h] at heq
      cases pre with
      | nil =>
        simp only [List.nil_append, List.cons.injEq] at heq
        exact absurd heq.2.symm hpost
      | cons p pre2 =>
        have hlen := congrArg List.length heq
        simp at hlen
  | cons r rest ih =>
    intro acc pre g post hacc heq hpost
    unfold toGroupsAux at heq
    by_cases h : cap ≤ (acc ++ [r]).length
    · rw [if_pos h] at heq
      cases pre with
      | nil =>
        simp only [List.nil_append] at heq
        have hg := (List.cons.injEq _ _ _ _).mp heq
        rw [← hg.1]
        simp only [List.length_append, List.length_singleton] at h ⊢
        omega
      | cons p pre2 =>
        simp only [List.cons_append] at heq
        have hg := (List.cons.injEq _ _ _ _).mp heq
        exact ih [] pre2 g post (by simpa using Nat.lt_of_le_of_lt (Nat.zero_le _) (Nat.lt_of_lt_of_le hacc (Nat.le_refl _))) hg.2 hpost
    · rw [if_neg h] at heq
      refine ih (acc ++ [r]) pre g post ?_ heq hpost
      simp only [List.length_append, List.length_singleton] at h ⊢
      omega

theorem processRecord_blank (s : Store) : processRecord s blank = some s := rfl

theorem processBatchAux_blanks (n : Nat) :
    ∀ (s : Store), processBatchAux (List.replicate n blank) s = some s := by
  induction n with
  | zero => intro s; rfl
  | succ n ih =>
    intro s
    rw [List.replicate_succ,
      processBatchAux_cons_some blank _ s s (processRecord_blank s)]
    exact ih s

theorem toGroupsAux_push (cap : Nat) (x : Record) (l : List Record) :
    ∀ (n : Nat) (acc : List Record), acc.length + n < cap →
    toGroupsAux cap (List.replicate n x ++ l) acc =
      toGroupsAux cap l (acc ++ List.replicate n x) := by
  intro n
  induction n with
  | zero => intro acc _; simp
  | succ n ih =>
    intro acc hlt
    rw [List.replicate_succ, List.cons_append, toGroupsAux_cons]
    have hnot : ¬ cap ≤ (acc ++ [x]).length := by
      simp only [List.length_append, List.length_singleton]
      omega
    rw [if_neg hnot, ih (acc ++ [x])
      (by simp only [List.length_append, List.length_singleton]; omega)]
    congr 1
    rw [List.append_assoc]
    congr 1

theorem cinput_groups :
    toGroups batchSize cinput = [rA :: List.replicate 999 blank, [rB]] := by
  have h999 : (List.replicate 999 blank : List Record) ++ [blank] ++ [rB]
      = List.replicate 999 blank ++ (blank :: [rB]) := by
    rw [List.append_assoc]
    rfl
  unfold toGroups cinput
  rw [toGroupsAux_cons]
  have h1 : ¬ batchSize ≤ (([] : List Record) ++ [rA]).length := by
    simp only [List.nil_append, List.length_singleton, batchSize]
    omega
  rw [if_neg h1, List.nil_append]
  have h998 : (List.replicate 999 blank : List Record) ++ [rB]
      = List.replicate 998 blank ++ (blank :: [rB]) := by
    rw [List.replicate_succ', List.append_assoc]
    rfl
  rw [h998, toGroupsAux_push batchSize blank (blank :: [rB]) 998 [rA]
    (by simp only [List.length_singleton, batchSize]; omega)]
  rw [toGroupsAux_cons]
  have h2 : batchSize ≤ (([rA] ++ List.replicate 998 blank) ++ [blank]).length := by
    simp only [List.length_append, List.length_singleton,
      List.length_replicate, batchSize]
    omega
  rw [if_pos h2]
  rw [toGroupsAux_cons]
  have h3 : ¬ batchSize ≤ (([] : List Record) ++ [rB]).length := by
    simp only [List.nil_append, List.length_singleton, batchSize]
    omega
  rw [if_neg h3, List.nil_append, toGroupsAux_nil]
  have h4 : ([rB] : List Record) ≠ [] := by simp
  rw [if_neg h4]
  have hhead : ([rA] ++ List.replicate 998 blank) ++ [blank]
      = rA :: List.replicate 999 blank := by
    rw [List.append_assoc, ← List.replicate_succ', List.singleton_append]
  rw [hhead]

theorem accStep_invariant (s t : AccState)
    (hs : s.buffer.length ≤ batchSize
      ∧ (s.inflight = none → s.buffer.length < batchSize))
    (ht : AccStep s t) :
    t.buffer.length ≤ batchSize
    ∧ (t.inflight = none → t.buffer.length < batchSize) := by
  cases ht with
  | arrive r hp hlen =>
    constructor
    · simp only [List.length_append, List.length_singleton]
      omega
    · intro _
      simp only [List.length_append, List.length_singleton]
      omega
  | fill r hp hlen =>
    have hlt := hs.2 hp
    constructor
    · simp only [List.length_append, List.length_singleton]
      omega
    · intro hnone
      exact absurd hnone (by simp)
  | complete g hp =>
    constructor
    · simp [batchSize]
    · intro _
      simp [batchSize]

theorem accReachable_invariant (s : AccState) (hs : AccReachable s) :
    s.buffer.length ≤ batchSize
    ∧ (s.inflight = none → s.buffer.length < batchSize) := by
  induction hs with
  | init =>
    constructor
    · simp [accInit, batchSize]
    · intro _
      simp [accInit, batchSize]
  | step s t hs ht ih => exact accStep_invariant s t ih ht

theorem runBatches_count (bs : List (List Record)) :
    ∀ (s : Store), (runBatches bs s).2 = (committedSizes bs s).sum := by
  induction bs with
  | nil =>
    intro s
    simp [runBatches, committedSizes]
  | cons b bs ih =>
    intro s
    simp only [runBatches, committedSizes]
    by_cases h2 : (processBatch b s).2
    · simp [h2, ih]
    · simp [h2, ih]

theorem runBatches_storeOk (bs : List (List Record)) :
    ∀ (s : Store), storeOk s → storeOk (runBatches bs s).1 := by
  induction bs with
  | nil => intro s hs; exact hs
  | cons b bs ih =>
    intro s hs
    simp only [runBatches]
    exact ih (processBatch b s).1 (processBatch_storeOk b s hs)

theorem processBatch_fail (b : List Record) (s : Store)
    (h : processBatchAux b s = none) : processBatch b s = (s, false) := by
  unfold processBatch
  rw [h]

theorem processBatch_ok (b : List Record) (s t : Store)
    (h : processBatchAux b s = some t) : processBatch b s = (t, true) := by
  unfold processBatch
  rw [h]

theorem runBatches_nil (s : Store) : runBatches [] s = (s, 0) := rfl

theorem runBatches_cons_fail (b : List Record) (bs : List (List Record))
    (s : Store) (h : processBatchAux b s = none) :
    runBatches (b :: bs) s = runBatches bs s := by
  simp only [runBatches, processBatch_fail b s h]
  simp

theorem runBatches_cons_ok (b : List Record) (bs : List (List Record))
    (s t : Store) (h : processBatchAux b s = some t) :
    runBatches (b :: bs) s =
      ((runBatches bs t).1, b.length + (runBatches bs t).2) := by
  simp only [runBatches, processBatch_ok b s t h]
  simp

theorem firstRun_store : populateDatabase cinput emptyStore = (sB, 1) := by
  have hA1 : processRecord emptyStore rA = none := by decide
  have hfail : processBatchAux (rA :: List.replicate 999 blank) emptyStore = none :=
    processBatchAux_cons_none rA _ emptyStore hA1
  have hB : processBatchAux [rB] emptyStore = some sB := by decide
  unfold populateDatabase
  rw [cinput_groups, runBatches_cons_fail _ _ _ hfail,
    runBatches_cons_ok _ _ _ _ hB, runBatches_nil]
  rfl

theorem secondRun_store : populateDatabase cinput sB = (sBA2, 1001) := by
  have hA2 : processRecord sB rA = some sBA := by decide
  have hgA : processBatchAux (rA :: List.replicate 999 blank) sB = some sBA := by
    rw [processBatchAux_cons_some rA (List.replicate 999 blank) sB sBA hA2]
    exact processBatchAux_blanks 999 sBA
  have hB2 : processBatchAux [rB] sBA = some sBA2 := by decide
  unfold populateDatabase
  rw [cinput_groups, runBatches_cons_ok _ _ _ _ hgA,
    runBatches_cons_ok _ _ _ _ hB2, runBatches_nil]
  simp only [List.length_cons, List.length_replicate, List.length_singleton,
    List.length_nil]

/-- C1: a group is applied all-or-nothing. If any insert of the group
fails, processBatch rolls the whole group back: the resulting store is
exactly the store from before the group, so none of the rows of the
group — its valid customer, product, invoice and item rows included —
appear in the store; the group reports failure and the driver loop
continues with the remaining groups from the unchanged store. -/
theorem group_rollback_all_or_nothing (b : List Record) (s : Store)
    (bs : List (List Record)) (h : processBatchAux b s = none) :
    processBatch b s = (s, false) ∧ runBatches (b :: bs) s = runBatches bs s :=
  ⟨processBatch_fail b s h, runBatches_cons_fail b bs s h⟩

/-- C1 witness: the single-record group `[rA]` (line item referencing a
product whose description was missing) fails, leaves the empty store
untouched, and the run continues with the remaining groups. -/
theorem group_rollback_all_or_nothing_witness :
    processBatchAux [rA] emptyStore = none
    ∧ (processBatch [rA] emptyStore = (emptyStore, false)
      ∧ runBatches [[rA]] emptyStore = runBatches [] emptyStore) :=
  ⟨by decide, group_rollback_all_or_nothing [rA] emptyStore [] (by decide)⟩

/-- C2: for a record whose inserts all succeed, the four tables change
exactly as described by recordEffect: a Customer row is upserted iff the
customer id field is present and non-empty (a key conflict leaves the
table, existing country included, unchanged); a Product row iff stock
code and description are both present and non-empty; an Invoice row iff
the invoice id is present and non-empty; and an InvoiceItem row is
appended unconditionally, with no dedup check, iff invoice id and stock
code are both present and non-empty. -/
theorem record_upsert_semantics (s : Store) (r : Record) (t : Store)
    (h : processRecord s r = some t) : recordEffect s r t :=
  processRecord_effect s r t h

/-- C2 witness: processing `rB` against the empty store yields `sB`, and
the table-by-table characterization holds there. -/
theorem record_upsert_semantics_witness :
    processRecord emptyStore rB = some sB ∧ recordEffect emptyStore rB sB :=
  ⟨by decide, record_upsert_semantics emptyStore rB sB (by decide)⟩

/-- C3: every invoice row added by processing a record has
is_cancelled = true iff its invoice id starts with the cancellation
marker C (and false otherwise), since the row is built with
is_cancelled derived from the startsWith check on the same string that
becomes the invoice id. -/
theorem invoice_cancellation_marker (s : Store) (r : Record) (t : Store)
    (h : processRecord s r = some t) :
    ∀ inv ∈ t.invoices, inv ∈ s.invoices
      ∨ inv.is_cancelled = jsStartsWith inv.invoice_id "C" := by
  have he := processRecord_effect s r t h
  intro inv hinv
  rw [he.2.2.1] at hinv
  by_cases hg : truthy r.InvoiceNo
  · rw [if_pos hg] at hinv
    by_cases h2 : r.InvoiceNo.getD "" ∈ invoiceKeys s
    · rw [if_pos h2] at hinv
      exact Or.inl hinv
    · rw [if_neg h2, List.mem_append] at hinv
      cases hinv with
      | inl h3 => exact Or.inl h3
      | inr h3 =>
        rw [List.mem_singleton] at h3
        subst h3
        exact Or.inr rfl
  · rw [if_neg hg] at hinv
    exact Or.inl hinv

/-- C3 witness: the cancellation record `rC` (invoice C536403) inserts
an invoice row whose is_cancelled agrees with the marker check. -/
theorem invoice_cancellation_marker_witness :
    processRecord emptyStore rC = some sC
    ∧ ∀ inv ∈ sC.invoices, inv ∈ emptyStore.invoices
        ∨ inv.is_cancelled = jsStartsWith inv.invoice_id "C" :=
  ⟨by decide, invoice_cancellation_marker emptyStore rC sC (by decide)⟩

/-- C4 (amended): provided every group of the first run commits, a
second run of the full pipeline over the identical input, from the
state the first run left, keeps the Customer, Product and Invoice
tables exactly as they were and exactly doubles the InvoiceItem row
count. (Without that proviso the claim fails, see the counterexample:
a group that failed in the first run can commit in the second.) -/
theorem rerun_dimensions_fixed_items_doubled (input : List Record)
    (h : allOk (toGroups batchSize input) emptyStore = true) :
    ((populateDatabase input (populateDatabase input emptyStore).1).1.customers
        = (populateDatabase input emptyStore).1.customers)
    ∧ ((populateDatabase input (populateDatabase input emptyStore).1).1.products
        = (populateDatabase input emptyStore).1.products)
    ∧ ((populateDatabase input (populateDatabase input emptyStore).1).1.invoices
        = (populateDatabase input emptyStore).1.invoices)
    ∧ (populateDatabase input (populateDatabase input emptyStore).1).1.invoice_items.length
        = 2 * (populateDatabase input emptyStore).1.invoice_items.length := by
  unfold populateDatabase
  have hre := runBatches_rerun (toGroups batchSize input) emptyStore
    (runBatches (toGroups batchSize input) emptyStore).1 h
    (List.Subset.refl _) (List.Subset.refl _) (List.Subset.refl _)
  have hitems : (runBatches (toGroups batchSize input) emptyStore).1.invoice_items
      = runItems (toGroups batchSize input) := by
    rw [runBatches_allOk_items (toGroups batchSize input) emptyStore h]
    rfl
  rw [hre.1]
  refine ⟨rfl, rfl, rfl, ?_⟩
  simp only [hitems, List.length_append]
  omega

/-- C4 witness: for the single-record input `[rB]` the lone group
commits, and the rerun keeps the dimension tables and doubles the line
items. -/
theorem rerun_dimensions_fixed_items_doubled_witness :
    allOk (toGroups batchSize [rB]) emptyStore = true
    ∧ (((populateDatabase [rB] (populateDatabase [rB] emptyStore).1).1.customers
          = (populateDatabase [rB] emptyStore).1.customers)
      ∧ ((populateDatabase [rB] (populateDatabase [rB] emptyStore).1).1.products
          = (populateDatabase [rB] emptyStore).1.products)
      ∧ ((populateDatabase [rB] (populateDatabase [rB] emptyStore).1).1.invoices
          = (populateDatabase [rB] emptyStore).1.invoices)
      ∧ (populateDatabase [rB] (populateDatabase [rB] emptyStore).1).1.invoice_items.length
          = 2 * (populateDatabase [rB] emptyStore).1.invoice_items.length) :=
  ⟨by decide, rerun_dimensions_fixed_items_doubled [rB] (by decide)⟩

/-- C4 counterexample: over `cinput` (a doomed first group that a later
group retroactively repairs) the second run does change the Invoice
table — the formerly failed group commits on the rerun — and the line
item count does not double; so the claim as stated, without the proviso
that every group of the first run committed, is false. -/
theorem rerun_counterexample :
    ¬ (((populateDatabase cinput (populateDatabase cinput emptyStore).1).1.customers
          = (populateDatabase cinput emptyStore).1.customers)
      ∧ ((populateDatabase cinput (populateDatabase cinput emptyStore).1).1.products
          = (populateDatabase cinput emptyStore).1.products)
      ∧ ((populateDatabase cinput (populateDatabase cinput emptyStore).1).1.invoices
          = (populateDatabase cinput emptyStore).1.invoices)
      ∧ (populateDatabase cinput (populateDatabase cinput emptyStore).1).1.invoice_items.length
          = 2 * (populateDatabase cinput emptyStore).1.invoice_items.length) := by
  rw [firstRun_store]
  have hfst : ((sB, 1) : Store × Nat).1 = sB := rfl
  rw [hfst, secondRun_store]
  decide

/-- C5: the per-record insert order (customer, then product, then
invoice, then line item) together with the foreign-key checks of the
store preserves referential integrity: starting from a store in which
every line item references an existing invoice and product row, the
store after any group — committed or rolled back — still satisfies
that invariant, and so does the store a full pipeline run leaves. -/
theorem items_reference_existing_rows (b : List Record) (s : Store)
    (input : List Record) (hs : storeOk s) :
    storeOk (processBatch b s).1
    ∧ storeOk (populateDatabase input emptyStore).1 :=
  ⟨processBatch_storeOk b s hs,
   runBatches_storeOk (toGroups batchSize input) emptyStore
     (by intro it hit; exact absurd hit (List.not_mem_nil it))⟩

/-- C5 witness: the empty store satisfies the invariant and so does the
store after the committed group `[rB]`. -/
theorem items_reference_existing_rows_witness :
    storeOk emptyStore
    ∧ (storeOk (processBatch [rB] emptyStore).1
      ∧ storeOk (populateDatabase [rB] emptyStore).1) :=
  ⟨by decide, items_reference_existing_rows [rB] emptyStore [rB] (by decide)⟩

/-- C6: the batch accumulator hands every record read from the source to
the loader exactly once and in order (the groups flatten back to the
input), every group is non-empty and holds at most batchSize = 1000
records, every group except the final one holds exactly 1000 records
(the buffer is flushed exactly when it reaches capacity), a trailing
short buffer is flushed as the final group, and the pipeline is
exactly the sequential group-at-a-time driver over these groups. -/
theorem accumulator_grouping (l : List Record) (s : Store) :
    (toGroups batchSize l).flatten = l
    ∧ (∀ g ∈ toGroups batchSize l, g ≠ [] ∧ g.length ≤ batchSize)
    ∧ (∀ (pre : List (List Record)) (g : List Record)
        (post : List (List Record)),
        toGroups batchSize l = pre ++ g :: post → post ≠ [] →
        g.length = batchSize)
    ∧ populateDatabase l s = runBatches (toGroups batchSize l) s := by
  refine ⟨?_, ?_, ?_, rfl⟩
  · rw [toGroups, toGroupsAux_flatten]
    rfl
  · intro g hg
    exact toGroupsAux_bounds batchSize (by decide) l [] (by decide) g hg
  · intro pre g post heq hpost
    exact toGroupsAux_full batchSize l [] pre g post (by decide) heq hpost

/-- C7: in every reachable state of the streaming loop the buffer holds
at most one full group (batchSize = 1000) of unconsumed records, and
whenever no group is in flight it is strictly below capacity; at most
one group is ever in flight since the in-flight group is a single
optional component and arrivals are disabled while it is present. -/
theorem backpressure_buffer_bounded (s : AccState) (hs : AccReachable s) :
    s.buffer.length ≤ batchSize
    ∧ (s.inflight = none → s.buffer.length < batchSize) :=
  accReachable_invariant s hs

/-- C7 witness: the initial accumulator state is reachable and satisfies
the bound. -/
theorem backpressure_buffer_bounded_witness :
    AccReachable accInit
    ∧ (accInit.buffer.length ≤ batchSize
      ∧ (accInit.inflight = none → accInit.buffer.length < batchSize)) :=
  ⟨AccReachable.init, backpressure_buffer_bounded accInit AccReachable.init⟩

/-- C8: the code contradicts the nullable-customer design. For a record
with a non-empty invoice id and an empty (blank cell) customer id, the
invoice insert receives the empty string — not NULL — as customer_id,
which violates the foreign key to customers, so the whole group rolls
back and no invoice row is stored; only when the customer column is
absent altogether (NULL) does the invoice row go in with a null
customer id and the group commit. -/
theorem empty_customer_id_dooms_group :
    truthy rAnon.InvoiceNo = true
    ∧ truthy rAnon.CustomerID = false
    ∧ processBatch [rAnon] emptyStore = (emptyStore, false)
    ∧ (processBatch [rAnonN] emptyStore).2 = true
    ∧ (processBatch [rAnonN] emptyStore).1.invoices
        = [⟨"536414", none, some "2010-12-01 11:45:00",
            some "United Kingdom", false⟩] := by
  decide

/-- C9 (amended): on the three-row example the pipeline run over an
empty store commits one group and yields one Customer row (17850,
United Kingdom), one Product row (85123A), three Invoice rows — 536365
not cancelled, C536366 cancelled, and also 536367 not cancelled, since
the invoice id of the third record is present — and exactly two InvoiceItem
rows, the third record contributing neither a Product nor an
InvoiceItem row because its stock code is empty. -/
theorem example_pipeline_result :
    populateDatabase [ex1, ex2, ex3] emptyStore =
      (⟨[("17850", some "United Kingdom")],
        [("85123A", some "WHITE HANGING HEART T-LIGHT HOLDER")],
        [⟨"536365", some "17850", some "2010-12-01 08:26:00",
          some "United Kingdom", false⟩,
         ⟨"C536366", some "17850", some "2010-12-01 08:28:00",
          some "United Kingdom", true⟩,
         ⟨"536367", some "17850", some "2010-12-01 08:34:00",
          some "United Kingdom", false⟩],
        [⟨"536365", "85123A", some "6", some "2.55"⟩,
         ⟨"C536366", "85123A", some "-1", some "2.55"⟩]⟩, 3) := by
  decide

/-- C9 counterexample: the claimed store contents list exactly two
Invoice rows, but the run over the example input leaves three. -/
theorem example_pipeline_not_two_invoices :
    (populateDatabase [ex1, ex2, ex3] emptyStore).1.invoices.length ≠ 2 := by
  decide

/-- C10: the running processedRows count equals the sum of the sizes of
exactly the groups that committed; a rolled-back group contributes
nothing, both for an arbitrary group sequence and for the full
pipeline. -/
theorem processed_rows_count_committed (bs : List (List Record)) (s : Store)
    (input : List Record) :
    (runBatches bs s).2 = (committedSizes bs s).sum
    ∧ (populateDatabase input emptyStore).2
        = (committedSizes (toGroups batchSize input) emptyStore).sum :=
  ⟨runBatches_count bs s,
   runBatches_count (toGroups batchSize input) emptyStore⟩

end OnlineRetail
